import Mathlib

/-!
Verification of the rust-slack-bot event-dispatch and command-execution
pipeline, shallowly embedded from `src/executor.rs` and `src/slack.rs`.
Strings are modelled as `List Char`; Rust string operations (`trim`,
`lines`, `split`, `find`, `starts_with`, `trim_start_matches`) are
translated directly.  Panics (`unwrap`, `todo!`, `unimplemented!`) are
modelled as explicit outcome constructors.
-/

/-- Strings of the model: Rust `&str` as a list of characters. -/
abbrev Str := List Char

/-- Conversion from Lean string literals to the model's strings. -/
def str (s : String) : Str := s.data

/-- Rust `char::is_whitespace`: the Unicode White_Space property. -/
def rustIsWhitespace (c : Char) : Bool :=
  c.val == 0x09 || c.val == 0x0A || c.val == 0x0B || c.val == 0x0C ||
  c.val == 0x0D || c.val == 0x20 || c.val == 0x85 || c.val == 0xA0 ||
  c.val == 0x1680 || (0x2000 ≤ c.val && c.val ≤ 0x200A) ||
  c.val == 0x2028 || c.val == 0x2029 || c.val == 0x202F ||
  c.val == 0x205F || c.val == 0x3000

/-- Rust `str::trim_start`. -/
def trimStart (s : Str) : Str := s.dropWhile rustIsWhitespace

/-- Rust `str::trim_end`. -/
def trimEnd (s : Str) : Str := (s.reverse.dropWhile rustIsWhitespace).reverse

/-- Rust `str::trim`. -/
def trim (s : Str) : Str := trimEnd (trimStart s)

/-- Rust `str::starts_with(c)` for a single character pattern. -/
def startsWithChar (c : Char) : Str → Bool
  | [] => false
  | d :: _ => d = c

/-- Rust `str::split(sep)` on a single character: always at least one
(possibly empty) segment, one extra segment per separator occurrence. -/
def splitOnChar (sep : Char) : Str → List Str
  | [] => [[]]
  | c :: cs =>
    if c = sep then [] :: splitOnChar sep cs
    else
      match splitOnChar sep cs with
      | [] => [[c]]
      | p :: ps => (c :: p) :: ps

/-- Rust `str::split_inclusive('\n')`: pieces end just after each
newline; the empty string yields no pieces. -/
def splitInclusiveNl : Str → List Str
  | [] => []
  | c :: cs =>
    if c = '\n' then [c] :: splitInclusiveNl cs
    else
      match splitInclusiveNl cs with
      | [] => [[c]]
      | p :: ps => (c :: p) :: ps

/-- The per-piece map of Rust `str::lines`: strip one trailing `\n`,
and a `\r` just before it when present. -/
def stripLineEnd (l : Str) : Str :=
  match l.reverse with
  | '\n' :: '\r' :: t => t.reverse
  | '\n' :: t => t.reverse
  | _ => l

/-- Rust `str::lines`: `split_inclusive('\n')` with the terminators
(`\n` or `\r\n`) removed from each piece. -/
def rustLines (s : Str) : List Str :=
  (splitInclusiveNl s).map stripLineEnd

/-- Join lines with `\n` separators (used to state properties about
multi-line inputs). -/
def joinWithNl : List Str → Str
  | [] => []
  | [l] => l
  | l :: ls => l ++ '\n' :: joinWithNl ls

/-- Does `pat` occur as a prefix of `s`? -/
def beginsWith : Str → Str → Bool
  | [], _ => true
  | _ :: _, [] => false
  | a :: as_, b :: bs => a = b && beginsWith as_ bs

/-- Rust `str::find(pattern)`: index of the first occurrence of `pat`
in `s` (character index; all patterns used in the source are ASCII). -/
def findSub (pat : Str) : Str → Option Nat
  | [] => if beginsWith pat [] then some 0 else none
  | c :: cs =>
    if beginsWith pat (c :: cs) then some 0
    else (findSub pat cs).map (· + 1)

/-! ## `src/executor.rs`: `ExecutorInput` -/

/-- `ExecutorInput { name, input }` from `src/executor.rs`. -/
structure ExecutorInput where
  name : Str
  input : Str
deriving DecidableEq

/-- Outcome of `ExecutorInput::parse_code_block`.  Besides `Ok` and
`Err(ParseCodeBlockError::SplitFailure)` the Rust function can panic:
an unrecognized directive key hits `unimplemented!()`. -/
inductive ParseResult where
  | ok (v : ExecutorInput)
  | splitFailure (line : Str)
  | panicUnimplemented (key : Str)
deriving DecidableEq

/-- The loop body of `ExecutorInput::parse_code_block` over the already
trimmed lines: directive lines (`starts_with('#')`) are stripped of
leading `#`s, trimmed, split on `:`; the `Vec` pops take the last segment
as value and the segment before it as key; other lines are appended to
`input`. -/
def parseLines : ExecutorInput → List Str → ParseResult
  | acc, [] => .ok acc
  | acc, line :: rest =>
    if startsWithChar '#' line then
      let raw := trim (line.dropWhile (fun c => c = '#'))
      let arr := splitOnChar ':' raw
      match arr.reverse with
      | value :: key :: _ =>
        if key = "executor".data then
          parseLines { acc with name := trim value } rest
        else
          .panicUnimplemented key
      | _ => .splitFailure raw
    else
      parseLines { acc with input := acc.input ++ line } rest

/-- `ExecutorInput::parse_code_block`: split the message into lines,
trim each, then run the directive/payload loop from a default value. -/
def parse_code_block (message : Str) : ParseResult :=
  parseLines ⟨[], []⟩ ((rustLines message).map trim)

/-- The triple-backtick fence marker. -/
def marker : Str := "\x60\x60\x60".data

/-- `ExecutorInput::extract_code_block_from_slack_message`: text between
the first fence marker and the next one after it, if both exist. -/
def extract_code_block_from_slack_message (message : Str) : Option Str :=
  match findSub marker message with
  | none => none
  | some s0 =>
    let rest := message.drop (s0 + 3)
    match findSub marker rest with
    | none => none
    | some e => some (rest.take e)

/-- Outcome of `ExecutorInput::new_from_slack`. -/
inductive InputResult where
  | ok (v : ExecutorInput)
  | extractCodeBlockError (msg : Str)
  | splitFailure (line : Str)
  | panicUnimplemented (key : Str)
deriving DecidableEq

/-- `ExecutorInput::new_from_slack`: extract the fenced block (its
absence is `ExtractCodeBlockError` carrying the whole message), then
parse it. -/
def new_from_slack (message : Str) : InputResult :=
  match extract_code_block_from_slack_message message with
  | none => .extractCodeBlockError message
  | some extracted =>
    match parse_code_block extracted with
    | .ok v => .ok v
    | .splitFailure l => .splitFailure l
    | .panicUnimplemented k => .panicUnimplemented k

/-! ## `src/executor.rs`: `Executor` and the handlebars renderer

`Executor::prepare_command` registers `self.command` as a handlebars
template and renders it with the data `{ "input": input }`.  The
relevant fragment of the handlebars engine is modelled: a template is a
sequence of literal chunks and `\x7b\x7b name \x7d\x7d` variables
(unclosed braces are a `TemplateError`); rendering a variable looks its
trimmed name up in the data, the empty string for a missing name, and
applies the engine's default HTML escaping to the value. -/

/-- The `\x7b` character (left curly brace). -/
def lbrace : Char := Char.ofNat 123

/-- The `\x7d` character (right curly brace). -/
def rbrace : Char := Char.ofNat 125

/-- The opening `\x7b\x7b` of a handlebars variable. -/
def openMustache : Str := [lbrace, lbrace]

/-- The closing `\x7d\x7d` of a handlebars variable. -/
def closeMustache : Str := [rbrace, rbrace]

/-- A parsed handlebars template part. -/
inductive TemplatePart where
  | lit (s : Str)
  | var (name : Str)
deriving DecidableEq

/-- Fuel-indexed handlebars template parser: find the next opening
braces, then the matching close; the trimmed text between is a variable
name.  Each step consumes at least four characters, so fuel equal to
the template length never runs out (fuel exhaustion with a pending
variable yields `none`, like a malformed template). -/
def tplGo : Nat → Str → Option (List TemplatePart)
  | 0, s =>
    match findSub openMustache s with
    | none => some [.lit s]
    | some _ => none
  | fuel + 1, s =>
    match findSub openMustache s with
    | none => some [.lit s]
    | some i =>
      let rest := s.drop (i + 2)
      match findSub closeMustache rest with
      | none => none
      | some j =>
        match tplGo fuel (rest.drop (j + 2)) with
        | none => none
        | some ps => some (.lit (s.take i) :: .var (trim (rest.take j)) :: ps)

/-- `Handlebars::register_template_string`: `none` is a `TemplateError`. -/
def parseTemplate (s : Str) : Option (List TemplatePart) :=
  tplGo s.length s

/-- The handlebars default escape function (`html_escape`), applied to
every substituted value. -/
def htmlEscapeChar (c : Char) : Str :=
  if c = '<' then "&lt;".data
  else if c = '>' then "&gt;".data
  else if c = '"' then "&quot;".data
  else if c = '&' then "&amp;".data
  else if c = Char.ofNat 39 then "&#x27;".data
  else if c = Char.ofNat 96 then "&#x60;".data
  else if c = '=' then "&#x3d;".data
  else [c]

/-- HTML-escape a whole string. -/
def htmlEscape (s : Str) : Str := (s.map htmlEscapeChar).flatten

/-- Lookup in the render data (a string-to-string mapping). -/
def lookupData (key : Str) : List (Str × Str) → Option Str
  | [] => none
  | (k, v) :: rest => if k = key then some v else lookupData key rest

/-- Render one template part: literals verbatim; variables are looked
up (missing names render as the empty string in non-strict mode) and
HTML-escaped. -/
def renderPart (data : List (Str × Str)) : TemplatePart → Str
  | .lit s => s
  | .var n =>
    match lookupData n data with
    | some v => htmlEscape v
    | none => []

/-- `Handlebars::render` of a parsed template. -/
def renderParts (ps : List TemplatePart) (data : List (Str × Str)) : Str :=
  (ps.map (renderPart data)).flatten

/-- `Executor { command }` from `src/executor.rs`. -/
structure Executor where
  command : Str
deriving DecidableEq

/-- `Executor::prepare_command`: register `self.command` as a template
and render it with `{ "input": input }`; `none` models the propagated
`TemplateError`. -/
def prepare_command (e : Executor) (input : Str) : Option Str :=
  match parseTemplate e.command with
  | none => none
  | some ps => some (renderParts ps [("input".data, input)])

/-- Outcome of `Executor::execute`.  `panicked` models the
`stdout.read().unwrap()` call: `duct`'s `read` returns an error on a
spawn failure or a non-zero exit status, and `unwrap` panics on it. -/
inductive ExecuteOutcome where
  | ok
  | templateError
  | panicked
deriving DecidableEq

/-- `Executor::execute`, parametrized by the external shell
(`cmd!("/bin/bash", "-c", command).read()`): `some stdout` on success,
`none` on spawn failure or non-zero exit. -/
def Executor.execute (shell : Str → Option Str) (e : Executor)
    (input : ExecutorInput) : ExecuteOutcome :=
  match prepare_command e input.input with
  | none => .templateError
  | some command =>
    match shell command with
    | some _ => .ok
    | none => .panicked

/-- `Executors { executors }`: the `HashMap<String, Executor>` registry,
modelled as an association list with unique keys. -/
structure Executors where
  executors : List (Str × Executor)
deriving DecidableEq

/-- `HashMap::get` on the registry. -/
def lookupExecutor (key : Str) : List (Str × Executor) → Option Executor
  | [] => none
  | (k, v) :: rest => if k = key then some v else lookupExecutor key rest

/-- The `Default` impl for `Executors`: a single `echo` executor whose
command template is `echo \x7b\x7b input \x7d\x7d`. -/
def defaultExecutors : Executors :=
  ⟨[("echo".data, ⟨str "echo \x7b\x7b input \x7d\x7d"⟩)]⟩

/-- Outcome of `Executors::execute_from_slack_message`.  The `Err`
variants mirror `ExecutorExecuteError`; `panicked` records that a panic
(from `unimplemented!()` in parsing or `unwrap` in `execute`) unwinds
through the call. -/
inductive RunOutcome where
  | ok
  | noAvailableExecutors
  | extractCodeBlockError (msg : Str)
  | splitFailure (line : Str)
  | noSuchExecutors (name : Str)
  | panicked
deriving DecidableEq

/-- `Executors::execute_from_slack_message`: empty-registry check,
parse the message, look the executor up, then `let _ =
executor.execute(input);` — the execute result is discarded and `Ok(())`
is returned (only a panic escapes). -/
def execute_from_slack_message (shell : Str → Option Str)
    (exs : Executors) (message : Str) : RunOutcome :=
  if exs.executors.isEmpty then .noAvailableExecutors
  else
    match new_from_slack message with
    | .extractCodeBlockError m => .extractCodeBlockError m
    | .splitFailure l => .splitFailure l
    | .panicUnimplemented _ => .panicked
    | .ok input =>
      match lookupExecutor input.name exs.executors with
      | none => .noSuchExecutors input.name
      | some ex =>
        match ex.execute shell input with
        | .panicked => .panicked
        | _ => .ok

/-! ## `src/slack.rs`: the event dispatcher

One iteration of the `loop` in `Slack::listen_websocket` is modelled as
a pure step function from the classification of the received frame to
the messages sent (acknowledgements, chat replies) and whether the loop
continues or a panic unwinds.  Transport reads and writes themselves are
abstracted as succeeding. -/

/-- The `SlackWebsocketMessagePayloadEvent` variants, keeping the fields
the dispatcher uses (`text`, `ts`, `type`, `reaction`). -/
inductive PayloadEvent where
  | appMention (text ts : Str)
  | threadReply (text ts : Str)
  | channelMessageSent (text ts : Str)
  | channelMessageDeleted
  | reactionUpdated (rtype reaction : Str)
deriving DecidableEq

/-- Classification of a received websocket frame.
`normalMessage`/`hello` are the `SlackWebsocketMessage` variants;
`unparseable eid` is a text frame that fails to deserialize as
`SlackWebsocketMessage`, where `eid` is the string under the raw JSON's
`envelope_id` key when the raw text is valid JSON and has one (`none`
otherwise). -/
inductive Frame where
  | ping
  | hello
  | normalMessage (envelope_id : Str) (event : PayloadEvent)
  | unparseable (eid : Option Str)
deriving DecidableEq

/-- The form parameters `Slack::post_message` sends to
`chat.postMessage`. -/
structure PostedMessage where
  channel : Str
  text : Str
  icon_emoji : Str
  thread_ts : Option Str
deriving DecidableEq

/-- The hardcoded reply text of `post_message` (the source literal is
the three characters U+00E2, U+0153, U+2026 after `"Ok! "`). -/
def postText : Str :=
  "Ok! ".data ++ [Char.ofNat 0xE2, Char.ofNat 0x153, Char.ofNat 0x2026]

/-- `Slack::post_message`: the `_message` parameter is ignored; the
request always carries the fixed channel, text and icon, plus the
optional `thread_ts`. -/
def post_message (_message : Str) (ts : Option Str) : PostedMessage :=
  { channel := "rust-slack-bot".data
    text := postText
    icon_emoji := ":sushi:".data
    thread_ts := ts }

/-- How one loop iteration ends: read the next frame, or a panic
unwinds (`todo!` on an unhandled event, `unwrap` failures). -/
inductive StepTermination where
  | nextFrame
  | panicked
deriving DecidableEq

/-- Observable effects of one iteration of `listen_websocket`'s loop. -/
structure StepResult where
  acks : List Str
  posts : List PostedMessage
  outcome : StepTermination
deriving DecidableEq

/-- One iteration of the `loop` in `Slack::listen_websocket`:
* ping frames are skipped;
* a frame that fails to parse is acked via the raw JSON's
  `envelope_id` if one is recoverable, else `as_str().unwrap()`
  (or `from_str::<Value>(...).unwrap()`) panics;
* `AppMention`/`ChannelMessageSent`: run the executors on the text
  (a panic there unwinds before anything is sent), post the fixed
  reply threaded at `ts`, then ack;
* `ReactionUpdated`: ack only;
* `ThreadReply`: nothing at all (`// do nothing for now`);
* any other event (`ChannelMessageDeleted`): `todo!(...)` panics;
* `HelloMessage`: logged only. -/
def listen_step (shell : Str → Option Str) (executors : Executors)
    (frame : Frame) : StepResult :=
  match frame with
  | .ping => ⟨[], [], .nextFrame⟩
  | .hello => ⟨[], [], .nextFrame⟩
  | .unparseable eid =>
    match eid with
    | some e => ⟨[e], [], .nextFrame⟩
    | none => ⟨[], [], .panicked⟩
  | .normalMessage envelope_id event =>
    match event with
    | .appMention text ts | .channelMessageSent text ts =>
      match execute_from_slack_message shell executors text with
      | .panicked => ⟨[], [], .panicked⟩
      | _ => ⟨[envelope_id], [post_message text (some ts)], .nextFrame⟩
    | .reactionUpdated _ _ => ⟨[envelope_id], [], .nextFrame⟩
    | .threadReply _ _ => ⟨[], [], .nextFrame⟩
    | .channelMessageDeleted => ⟨[], [], .panicked⟩

/-- A shell oracle that reports success (empty stdout) on any command. -/
def shellOk : Str → Option Str := fun _ => some []

/-- A shell oracle on which every command fails (non-zero exit or spawn
failure). -/
def shellFail : Str → Option Str := fun _ => none

/-- A shell oracle matching the spec's `echo` scenario: the command
`echo hi` succeeds with stdout `hi\n`; everything else fails. -/
def echoShell : Str → Option Str :=
  fun c => if c = str "echo hi" then some (str "hi\n") else none


/-- Join strings with `:` separators (to state properties about
colon-containing directive lines). -/
def joinWithColon : List Str → Str
  | [] => []
  | [l] => l
  | l :: ls => l ++ ':' :: joinWithColon ls

/-- The directive `(key, value)` decomposition as the specification
claim words it: split on the LAST `:`, the text before it is the key
and the text after it the value (`none` when there is no colon).  This
definition follows the claim, not the source; it is compared against
the source's behavior. -/
def claimDirectiveKeyValue (s : Str) : Option (Str × Str) :=
  match (splitOnChar ':' s).reverse with
  | value :: k1 :: krest => some (joinWithColon (k1 :: krest).reverse, value)
  | _ => none

/-! ## Supporting lemmas: strings -/

/-- `dropWhile` never lengthens a list. -/
theorem length_dropWhile_le (p : Char → Bool) (l : Str) :
    (l.dropWhile p).length ≤ l.length := by
  induction l with
  | nil => simp
  | cons c cs ih =>
    by_cases h : p c
    · rw [List.dropWhile_cons_of_pos h]; exact Nat.le_succ_of_le ih
    · rw [List.dropWhile_cons_of_neg h]

/-- A `dropWhile` of full length dropped nothing. -/
theorem dropWhile_eq_self_of_length (p : Char → Bool) (l : Str)
    (h : (l.dropWhile p).length = l.length) : l.dropWhile p = l := by
  induction l with
  | nil => simp
  | cons c cs _ =>
    by_cases hp : p c
    · rw [List.dropWhile_cons_of_pos hp] at h
      have := length_dropWhile_le p cs
      simp at h
      omega
    · rw [List.dropWhile_cons_of_neg hp]

/-- A string equal to its own `trim` is equal to its own `trimStart`
and its own `trimEnd`. -/
theorem trim_fix (X : Str) (h : trim X = X) :
    trimStart X = X ∧ trimEnd X = X := by
  have hlenS : (trimStart X).length ≤ X.length := length_dropWhile_le _ X
  have hlenE : (trim X).length ≤ (trimStart X).length := by
    have := length_dropWhile_le rustIsWhitespace (trimStart X).reverse
    simpa [trim, trimEnd] using this
  have hX : (trimStart X).length = X.length := by
    rw [h] at hlenE; omega
  have hS : trimStart X = X := dropWhile_eq_self_of_length _ _ hX
  refine ⟨hS, ?_⟩
  rw [trim, hS] at h
  exact h

/-- Prepending anything preserves being `trimEnd`-trimmed, as long as
the string is nonempty (its last character is not whitespace). -/
theorem trimEnd_append (A X : Str) (hne : X ≠ []) (hX : trimEnd X = X) :
    trimEnd (A ++ X) = A ++ X := by
  have hrev : X.reverse.dropWhile rustIsWhitespace = X.reverse := by
    have := congrArg List.reverse hX
    simpa [trimEnd] using this
  obtain ⟨c, t, hct⟩ : ∃ c t, X.reverse = c :: t := by
    cases hXr : X.reverse with
    | nil => exact absurd (by simpa using congrArg List.reverse hXr) hne
    | cons c t => exact ⟨c, t, rfl⟩
  have hc : rustIsWhitespace c = false := by
    rw [hct] at hrev
    by_cases hc : rustIsWhitespace c
    · rw [List.dropWhile_cons_of_pos hc] at hrev
      have := length_dropWhile_le rustIsWhitespace t
      have := congrArg List.length hrev
      simp at this
      omega
    · simpa using hc
  have : (A ++ X).reverse.dropWhile rustIsWhitespace = (A ++ X).reverse := by
    rw [List.reverse_append, hct]
    rw [List.cons_append, List.dropWhile_cons_of_neg (by simp [hc])]
  calc trimEnd (A ++ X) = ((A ++ X).reverse.dropWhile rustIsWhitespace).reverse := rfl
    _ = (A ++ X).reverse.reverse := by rw [this]
    _ = A ++ X := by simp

/-- `trimStart` keeps a string whose head is not whitespace. -/
theorem trimStart_cons (c : Char) (s : Str) (h : rustIsWhitespace c = false) :
    trimStart (c :: s) = c :: s := by
  simp [trimStart, List.dropWhile_cons, h]

/-- Splitting a string not containing the separator yields one segment,
the string itself. -/
theorem splitOnChar_not_mem (sep : Char) (s : Str) (h : sep ∉ s) :
    splitOnChar sep s = [s] := by
  induction s with
  | nil => rfl
  | cons c cs ih =>
    simp only [List.mem_cons, not_or] at h
    have hcs : splitOnChar sep cs = [cs] := ih h.2
    have hc : ¬c = sep := fun hcc => h.1 hcc.symm
    simp [splitOnChar, hc, hcs]

/-- Splitting at the first separator: a separator-free part before a
separator becomes the first segment. -/
theorem splitOnChar_append (sep : Char) (A B : Str) (h : sep ∉ A) :
    splitOnChar sep (A ++ sep :: B) = A :: splitOnChar sep B := by
  induction A with
  | nil => simp [splitOnChar]
  | cons a A ih =>
    simp only [List.mem_cons, not_or] at h
    have ha : ¬a = sep := fun haa => h.1 haa.symm
    have hA := ih h.2
    simp only [List.cons_append, splitOnChar, if_neg ha, List.append_eq, hA]

/-- A pattern is a prefix of itself followed by anything. -/
theorem beginsWith_append (p t : Str) : beginsWith p (p ++ t) = true := by
  induction p with
  | nil => rfl
  | cons a p ih => simp [beginsWith, ih]

/-- A pattern whose first character does not occur in `s` does not
occur in `s`. -/
theorem findSub_eq_none (c : Char) (pat s : Str) (h : c ∉ s) :
    findSub (c :: pat) s = none := by
  induction s with
  | nil => simp [findSub, beginsWith]
  | cons d ds ih =>
    simp only [List.mem_cons, not_or] at h
    have hd : ¬c = d := h.1
    have := ih h.2
    simp [findSub, beginsWith, hd, this]

/-- The first occurrence of a pattern placed right after a part free of
the pattern's first character is at that part's length. -/
theorem findSub_append (c : Char) (pat A B : Str) (hA : c ∉ A)
    (hB : beginsWith (c :: pat) B = true) :
    findSub (c :: pat) (A ++ B) = some A.length := by
  induction A with
  | nil =>
    cases B with
    | nil => simp [beginsWith] at hB
    | cons b bs => simp [findSub, hB]
  | cons a A ih =>
    simp only [List.mem_cons, not_or] at hA
    have ha : ¬c = a := hA.1
    have hrec := ih hA.2
    simp [findSub, beginsWith, ha, hrec]

/-- Unfolding `splitInclusiveNl` on a non-newline head. -/
theorem splitInclusiveNl_cons_ne (c : Char) (cs : Str) (hc : ¬c = '\n') :
    splitInclusiveNl (c :: cs) =
      match splitInclusiveNl cs with
      | [] => [[c]]
      | p :: ps => (c :: p) :: ps := by
  simp [splitInclusiveNl, hc]

/-- `split_inclusive` of a newline-free nonempty string is the string
itself. -/
theorem splitInclusiveNl_no_newline (l : Str) (hne : l ≠ [])
    (h : '\n' ∉ l) : splitInclusiveNl l = [l] := by
  induction l with
  | nil => exact absurd rfl hne
  | cons c cs ih =>
    simp only [List.mem_cons, not_or] at h
    have hc : ¬c = '\n' := fun hcc => h.1 hcc.symm
    rw [splitInclusiveNl_cons_ne c cs hc]
    cases cs with
    | nil => rfl
    | cons d ds => rw [ih (by simp) h.2]

/-- `split_inclusive` at the first newline, for a newline-free first
line. -/
theorem splitInclusiveNl_append (l rest : Str) (h : '\n' ∉ l) :
    splitInclusiveNl (l ++ '\n' :: rest) =
      (l ++ ['\n']) :: splitInclusiveNl rest := by
  induction l with
  | nil => simp [splitInclusiveNl]
  | cons c cs ih =>
    simp only [List.mem_cons, not_or] at h
    have hc : ¬c = '\n' := fun hcc => h.1 hcc.symm
    have := ih h.2
    simp only [List.cons_append, splitInclusiveNl, if_neg hc, List.append_eq, this]

/-- Stripping the line end of a string with no newline and no carriage
return does nothing. -/
theorem stripLineEnd_no_newline (l : Str) (hn : '\n' ∉ l) :
    stripLineEnd l = l := by
  unfold stripLineEnd
  cases hrev : l.reverse with
  | nil => rfl
  | cons c t =>
    have hcl : c ∈ l := by
      have : c ∈ l.reverse := by rw [hrev]; exact List.mem_cons_self c t
      simpa using this
    have hc : c ≠ '\n' := fun hcc => hn (hcc ▸ hcl)
    cases t with
    | nil => simp [hc]
    | cons d ds => simp [hc]

/-- Stripping the line end of `l ++ "\n"` gives back a `\r`-free `l`. -/
theorem stripLineEnd_append_newline (l : Str) (hr : '\r' ∉ l) :
    stripLineEnd (l ++ ['\n']) = l := by
  unfold stripLineEnd
  have hrw : (l ++ ['\n']).reverse = '\n' :: l.reverse := by simp
  rw [hrw]
  cases hrev : l.reverse with
  | nil =>
    have hl : l = [] := by simpa using congrArg List.reverse hrev
    subst hl
    rfl
  | cons c t =>
    have hcl : c ∈ l := by
      have : c ∈ l.reverse := by rw [hrev]; exact List.mem_cons_self c t
      simpa using this
    have hc : ¬c = '\r' := fun hcc => hr (hcc ▸ hcl)
    have hback : (c :: t).reverse = l := by rw [← hrev]; simp
    simp [hc, hback]

/-- `rustLines` is a left inverse of `joinWithNl` on lists of lines
that contain no line-break characters and do not end with an empty
line. -/
theorem rustLines_joinWithNl (ls : List Str)
    (h : ∀ l ∈ ls, '\n' ∉ l ∧ '\r' ∉ l)
    (hlast : ls.getLast? ≠ some []) :
    rustLines (joinWithNl ls) = ls := by
  induction ls with
  | nil => rfl
  | cons l ls ih =>
    cases ls with
    | nil =>
      have hl := h l (by simp)
      have hne : l ≠ [] := by
        intro hl0
        exact hlast (by simp [hl0, List.getLast?])
      rw [show joinWithNl [l] = l from rfl]
      rw [rustLines, splitInclusiveNl_no_newline l hne hl.1]
      simp [stripLineEnd_no_newline l hl.1]
    | cons l2 ls2 =>
      have hl := h l (by simp)
      have hrest : ∀ x ∈ l2 :: ls2, '\n' ∉ x ∧ '\r' ∉ x := by
        intro x hx
        exact h x (List.mem_cons_of_mem l hx)
      have hlast2 : (l2 :: ls2).getLast? ≠ some [] := by
        rwa [List.getLast?_cons_cons] at hlast
      have hjoin : joinWithNl (l :: l2 :: ls2) = l ++ '\n' :: joinWithNl (l2 :: ls2) := rfl
      rw [hjoin, rustLines, splitInclusiveNl_append l _ hl.1]
      rw [List.map_cons, stripLineEnd_append_newline l hl.2]
      have := ih hrest hlast2
      rw [rustLines] at this
      rw [this]

/-! ## Supporting lemmas: the directive parser -/

/-- Non-directive lines are concatenated, without separators, onto the
accumulated payload; the parse succeeds. -/
theorem parseLines_body (n i : Str) (bs : List Str)
    (h : ∀ l ∈ bs, startsWithChar '#' l = false) :
    parseLines ⟨n, i⟩ bs = .ok ⟨n, i ++ bs.flatten⟩ := by
  induction bs generalizing i with
  | nil => simp [parseLines]
  | cons b bs ih =>
    have hb := h b (by simp)
    have hrest : ∀ l ∈ bs, startsWithChar '#' l = false :=
      fun l hl => h l (List.mem_cons_of_mem b hl)
    rw [parseLines, if_neg (by simp [hb])]
    rw [ih _ hrest]
    simp

/-- Processing a well-formed `# executor: X` directive line (for a
colon-free, newline-free, trimmed, nonempty `X`) sets the request name
to `X` and moves on. -/
theorem parseLines_dir (acc : ExecutorInput) (X : Str) (rest : List Str)
    (hXc : ':' ∉ X) (hXt : trim X = X) (hXne : X ≠ []) :
    parseLines acc (("# executor: ".data ++ X) :: rest) =
      parseLines { acc with name := X } rest := by
  obtain ⟨hS, hE⟩ := trim_fix X hXt
  have e1 : "# executor: ".data = '#' :: ' ' :: "executor: ".data := rfl
  have e2 : "executor: ".data = "executor".data ++ ':' :: [' '] := rfl
  have hdrop : ("# executor: ".data ++ X).dropWhile (fun c => c = '#') =
      ' ' :: ("executor: ".data ++ X) := by
    rw [e1]
    simp only [List.cons_append]
    rw [List.dropWhile_cons_of_pos (by decide), List.dropWhile_cons_of_neg (by decide)]
  have hraw : trim (' ' :: ("executor: ".data ++ X)) = "executor: ".data ++ X := by
    have h1 : trimStart (' ' :: ("executor: ".data ++ X)) =
        trimStart ("executor: ".data ++ X) := by
      simp [trimStart, List.dropWhile_cons_of_pos, show rustIsWhitespace ' ' = true by decide]
    have h2 : trimStart ("executor: ".data ++ X) = "executor: ".data ++ X := by
      have e3 : "executor: ".data = 'e' :: "xecutor: ".data := rfl
      rw [e3, List.cons_append]
      exact trimStart_cons _ _ (by decide)
    rw [trim, h1, h2]
    exact trimEnd_append _ _ hXne hE
  have hsplit : splitOnChar ':' ("executor: ".data ++ X) =
      ["executor".data, ' ' :: X] := by
    have hX2 : ':' ∉ ' ' :: X := by
      simp only [List.mem_cons, not_or]
      exact ⟨by decide, hXc⟩
    rw [e2, List.append_assoc]
    rw [show (':' :: [' '] : Str) ++ X = ':' :: (' ' :: X) from rfl]
    rw [splitOnChar_append ':' _ _ (by decide)]
    rw [splitOnChar_not_mem ':' _ hX2]
  have hval : trim (' ' :: X) = X := by
    have h1 : trimStart (' ' :: X) = trimStart X := by
      simp [trimStart, List.dropWhile_cons_of_pos, show rustIsWhitespace ' ' = true by decide]
    rw [trim, h1, hS]
    exact hE
  have hsplit2 : splitOnChar ':'
      ('e' :: 'x' :: 'e' :: 'c' :: 'u' :: 't' :: 'o' :: 'r' :: ':' :: ' ' :: X) =
      [['e', 'x', 'e', 'c', 'u', 't', 'o', 'r'], ' ' :: X] := hsplit
  rw [parseLines, if_pos (by simp [startsWithChar])]
  rw [hdrop, hraw]
  simp only [hsplit2, List.reverse_cons, List.reverse_nil, List.nil_append,
    List.cons_append]
  simp [hval]

/-! ## Supporting lemmas: the template renderer -/

/-- A template with no opening braces is a single literal, whatever the
fuel. -/
theorem tplGo_no_open (s : Str) (h : findSub openMustache s = none) :
    ∀ fuel, tplGo fuel s = some [.lit s] := by
  intro fuel
  cases fuel with
  | zero => simp [tplGo, h]
  | succ n => simp [tplGo, h]

/-- `openMustache` as an explicit cons. -/
theorem openMustache_eq : openMustache = lbrace :: [lbrace] := rfl

/-- `closeMustache` as an explicit cons. -/
theorem closeMustache_eq : closeMustache = rbrace :: [rbrace] := rfl

/-- Parsing a single-placeholder template: brace-free text around one
`\x7b\x7b nm \x7d\x7d` placeholder parses to literal, variable,
literal. -/
theorem tplGo_single (fuel : Nat) (pre nm post : Str)
    (hpre : lbrace ∉ pre) (hnm : rbrace ∉ nm) (hpost : lbrace ∉ post) :
    tplGo (fuel + 1) (pre ++ openMustache ++ nm ++ closeMustache ++ post) =
      some [.lit pre, .var (trim nm), .lit post] := by
  have hs : pre ++ openMustache ++ nm ++ closeMustache ++ post =
      pre ++ (openMustache ++ (nm ++ closeMustache ++ post)) := by
    simp [List.append_assoc]
  have hopen : findSub openMustache
      (pre ++ (openMustache ++ (nm ++ closeMustache ++ post))) = some pre.length := by
    rw [openMustache_eq]
    exact findSub_append lbrace [lbrace] pre _ hpre
      (by rw [← openMustache_eq]; exact beginsWith_append openMustache _)
  have hdrop : (pre ++ (openMustache ++ (nm ++ closeMustache ++ post))).drop
      (pre.length + 2) = nm ++ closeMustache ++ post := by
    rw [show pre ++ (openMustache ++ (nm ++ closeMustache ++ post)) =
        (pre ++ openMustache) ++ (nm ++ closeMustache ++ post) by simp [List.append_assoc]]
    exact List.drop_left' (by simp [openMustache])
  have hclose : findSub closeMustache (nm ++ closeMustache ++ post) = some nm.length := by
    rw [closeMustache_eq, List.append_assoc]
    exact findSub_append rbrace [rbrace] nm _ hnm
      (by rw [← closeMustache_eq]
          rw [show closeMustache ++ post = closeMustache ++ post from rfl]
          exact beginsWith_append closeMustache post)
  have htake : (nm ++ closeMustache ++ post).take nm.length = nm := by
    rw [List.append_assoc]
    exact List.take_left' rfl
  have hdrop2 : (nm ++ closeMustache ++ post).drop (nm.length + 2) = post := by
    exact List.drop_left' (by simp [closeMustache])
  have htail : tplGo fuel post = some [.lit post] :=
    tplGo_no_open post (by rw [openMustache_eq]; exact findSub_eq_none lbrace [lbrace] post hpost) fuel
  have hpretake : (pre ++ (openMustache ++ (nm ++ closeMustache ++ post))).take
      pre.length = pre := List.take_left' rfl
  rw [hs]
  rw [tplGo]
  rw [hopen]
  simp only
  rw [hdrop, hclose]
  simp only
  rw [hdrop2, htail]
  simp only
  rw [hpretake, htake]

/-- `register_template_string` on a single-placeholder template. -/
theorem parseTemplate_single (pre nm post : Str)
    (hpre : lbrace ∉ pre) (hnm : rbrace ∉ nm) (hpost : lbrace ∉ post) :
    parseTemplate (pre ++ openMustache ++ nm ++ closeMustache ++ post) =
      some [.lit pre, .var (trim nm), .lit post] := by
  have hlen : (pre ++ openMustache ++ nm ++ closeMustache ++ post).length =
      (pre.length + nm.length + post.length + 3) + 1 := by
    simp [openMustache, closeMustache]
    omega
  rw [parseTemplate, hlen]
  exact tplGo_single _ pre nm post hpre hnm hpost

/-- Rendering the parsed single-placeholder `input` template inserts
the HTML-escaped payload between the literals. -/
theorem renderParts_single (pre post payload : Str) :
    renderParts [.lit pre, .var "input".data, .lit post]
      [("input".data, payload)] = pre ++ htmlEscape payload ++ post := by
  simp [renderParts, renderPart, lookupData]

/-- A payload none of whose characters are escaped passes through
`htmlEscape` unchanged. -/
theorem htmlEscape_eq_self (payload : Str)
    (h : ∀ c ∈ payload, htmlEscapeChar c = [c]) : htmlEscape payload = payload := by
  induction payload with
  | nil => rfl
  | cons c cs ih =>
    have hc := h c (by simp)
    have hcs : ∀ x ∈ cs, htmlEscapeChar x = [x] :=
      fun x hx => h x (List.mem_cons_of_mem c hx)
    have hrest := ih hcs
    simp only [htmlEscape, List.map_cons, List.flatten_cons, hc] at *
    simp [hrest]

/-! ## Supporting lemmas: assembling whole messages -/

/-- Characters of a joined line list are newlines or line characters. -/
theorem mem_joinWithNl (c : Char) (ls : List Str) (h : c ∈ joinWithNl ls) :
    c = '\n' ∨ ∃ l ∈ ls, c ∈ l := by
  induction ls with
  | nil => simp [joinWithNl] at h
  | cons l ls ih =>
    cases ls with
    | nil => exact Or.inr ⟨l, by simp, h⟩
    | cons l2 ls2 =>
      rw [show joinWithNl (l :: l2 :: ls2) = l ++ '\n' :: joinWithNl (l2 :: ls2)
        from rfl] at h
      rcases List.mem_append.1 h with h1 | h2
      · exact Or.inr ⟨l, by simp, h1⟩
      · rcases List.mem_cons.1 h2 with h3 | h4
        · exact Or.inl h3
        · rcases ih h4 with h5 | ⟨l3, hl3, hcl3⟩
          · exact Or.inl h5
          · exact Or.inr ⟨l3, List.mem_cons_of_mem l hl3, hcl3⟩

/-- A string with a nonempty trim is nonempty. -/
theorem ne_nil_of_trim (l : Str) (h : trim l ≠ []) : l ≠ [] := by
  intro hl
  exact h (by rw [hl]; rfl)

/-- A pattern is a prefix of itself. -/
theorem beginsWith_refl (p : Str) : beginsWith p p = true := by
  have := beginsWith_append p []
  simpa using this

/-- `marker` as an explicit cons. -/
theorem marker_eq : marker = '\x60' :: ['\x60', '\x60'] := rfl

/-- `parse_code_block` over an explicitly joined list of break-free
lines processes exactly those lines, trimmed. -/
theorem parse_code_block_joinWithNl (ls : List Str)
    (h : ∀ l ∈ ls, '\n' ∉ l ∧ '\r' ∉ l) (hlast : ls.getLast? ≠ some []) :
    parse_code_block (joinWithNl ls) = parseLines ⟨[], []⟩ (ls.map trim) := by
  rw [parse_code_block, rustLines_joinWithNl ls h hlast]

/-- A well-formed directive line is already trimmed when its name part
is. -/
theorem trim_dir (X : Str) (hXt : trim X = X) (hXne : X ≠ []) :
    trim ("# executor: ".data ++ X) = "# executor: ".data ++ X := by
  obtain ⟨hS, hE⟩ := trim_fix X hXt
  have e1 : "# executor: ".data = '#' :: ' ' :: "executor: ".data := rfl
  have h1 : trimStart ("# executor: ".data ++ X) = "# executor: ".data ++ X := by
    rw [e1]
    simp only [List.cons_append]
    exact trimStart_cons _ _ (by decide)
  rw [trim, h1]
  exact trimEnd_append _ _ hXne hE

/-- Extracting the fenced block from a message that is exactly one
fence around backtick-free content returns the content. -/
theorem extract_fenced (block : Str) (hq : '\x60' ∉ block) :
    extract_code_block_from_slack_message (marker ++ block ++ marker) = some block := by
  have hB : beginsWith ('\x60' :: ['\x60', '\x60']) (marker ++ (block ++ marker)) = true := by
    rw [← marker_eq]
    exact beginsWith_append marker (block ++ marker)
  have hfind1 : findSub marker (marker ++ (block ++ marker)) = some 0 := by
    have h := findSub_append '\x60' ['\x60', '\x60'] [] (marker ++ (block ++ marker))
      (by simp) hB
    rw [← marker_eq] at h
    simpa using h
  have hB2 : beginsWith ('\x60' :: ['\x60', '\x60']) marker = true := by
    rw [← marker_eq]
    exact beginsWith_refl marker
  have hfind2 : findSub marker (block ++ marker) = some block.length := by
    have h := findSub_append '\x60' ['\x60', '\x60'] block marker hq hB2
    rw [← marker_eq] at h
    exact h
  have hdrop3 : (marker ++ (block ++ marker)).drop 3 = block ++ marker :=
    List.drop_left' (by rw [marker_eq]; rfl)
  have htake : (block ++ marker).take block.length = block := List.take_left' rfl
  rw [show marker ++ block ++ marker = marker ++ (block ++ marker) from
    List.append_assoc _ _ _]
  rw [extract_code_block_from_slack_message, hfind1]
  simp only [Nat.zero_add]
  rw [hdrop3, hfind2]
  simp only [htake]

/-! ## Claims -/

/-- C1, counterexample: a `NormalMessage` carrying an `envelope_id` and
a thread-reply payload event is processed without any acknowledgement
being sent (the `ThreadReply` arm does nothing), refuting "the
dispatcher sends exactly one acknowledgement ... regardless of which
payload event variant the frame carries". -/
theorem C1_counterexample :
    listen_step shellOk defaultExecutors
      (.normalMessage (str "e1") (.threadReply (str "hello") (str "1.2"))) =
      ⟨[], [], .nextFrame⟩ ∧
    (listen_step shellOk defaultExecutors
      (.normalMessage (str "e1")
        (.threadReply (str "hello") (str "1.2")))).acks.count (str "e1") = 0 := by
  decide

/-- C1, amended: a `NormalMessage` is acknowledged exactly once,
echoing its `envelope_id`, provided its payload event is not a thread
reply and the iteration finishes without panicking (thread replies are
never acknowledged; an unhandled event or a panicking execution unwinds
before the acknowledgement). -/
theorem C1_ack_exactly_once (shell : Str → Option Str) (exs : Executors)
    (eid : Str) (event : PayloadEvent)
    (hout : (listen_step shell exs (.normalMessage eid event)).outcome = .nextFrame)
    (hnt : ∀ t ts, event ≠ .threadReply t ts) :
    (listen_step shell exs (.normalMessage eid event)).acks = [eid] := by
  cases event with
  | appMention text ts =>
    cases hr : execute_from_slack_message shell exs text <;>
      simp [listen_step, hr] at hout ⊢
  | channelMessageSent text ts =>
    cases hr : execute_from_slack_message shell exs text <;>
      simp [listen_step, hr] at hout ⊢
  | threadReply t ts => exact absurd rfl (hnt t ts)
  | channelMessageDeleted => simp [listen_step] at hout
  | reactionUpdated a b => simp [listen_step]

/-- C1, witness: a reaction-update frame is acknowledged exactly once. -/
theorem C1_witness :
    (listen_step shellOk defaultExecutors
      (.normalMessage (str "e1")
        (.reactionUpdated (str "reaction_added") (str "x")))).acks = [str "e1"] :=
  C1_ack_exactly_once shellOk defaultExecutors (str "e1")
    (.reactionUpdated (str "reaction_added") (str "x"))
    (by decide) (fun t ts h => PayloadEvent.noConfusion h)

/-- C2: a `NormalMessage` whose payload event falls into the
dispatcher's unhandled arm (a `ChannelMessageDeleted` event) hits
`todo!(...)`, which panics: the frame is not acknowledged and the read
loop does not continue, contradicting the claim that such frames must
not crash the dispatcher and must be acknowledged. -/
theorem C2_unhandled_event_panics :
    listen_step shellOk defaultExecutors
      (.normalMessage (str "e1") .channelMessageDeleted) =
      ⟨[], [], .panicked⟩ := by
  decide

/-- C3: when the rendered shell command fails (non-zero exit status or
spawn failure), `Executor::execute` does not return normally with a
captured error — `stdout.read().unwrap()` panics.  There is no
`ExecutionResult` type in the code at all. -/
theorem C3_execute_panics_on_command_failure :
    Executor.execute shellFail ⟨str "echo \x7b\x7b input \x7d\x7d"⟩
      ⟨str "echo", str "hi"⟩ = .panicked ∧
    execute_from_slack_message shellFail defaultExecutors
      (str "\x60\x60\x60# executor: echo\nhi\x60\x60\x60") = .panicked := by
  decide

/-- C7, counterexample: a frame that fails structural parsing and whose
raw text has no recoverable string `envelope_id` makes the fallback
`v["envelope_id"].as_str().unwrap()` panic: no acknowledgement is sent
and the session terminates, refuting "a single malformed frame never
terminates the session". -/
theorem C7_counterexample :
    listen_step shellOk defaultExecutors (.unparseable none) =
      ⟨[], [], .panicked⟩ := by
  decide

/-- C7, amended: a frame that fails to parse as any known message shape
but whose raw structured text carries a recoverable string
`envelope_id` is acknowledged exactly once via the fallback path, and
the loop continues to the next frame; without a recoverable
`envelope_id` the fallback `unwrap` panics and the session dies. -/
theorem C7_fallback_ack (shell : Str → Option Str) (exs : Executors) (e : Str) :
    listen_step shell exs (.unparseable (some e)) = ⟨[e], [], .nextFrame⟩ := rfl

/-- C8, counterexample: with an executor whose template is malformed
(unclosed braces), rendering fails with a `TemplateError`, yet
`execute_from_slack_message` returns `Ok(())`: the `let _ =
executor.execute(input);` discards the error instead of propagating it
to the caller. -/
theorem C8_counterexample :
    Executor.execute shellOk ⟨str "echo \x7b\x7b input"⟩
      ⟨str "bad", str "hi"⟩ = .templateError ∧
    execute_from_slack_message shellOk ⟨[(str "bad", ⟨str "echo \x7b\x7b input"⟩)]⟩
      (str "\x60\x60\x60# executor: bad\nhi\x60\x60\x60") = .ok := by
  decide

/-- C8, amended: when the named executor exists and rendering its
template fails, the `TemplateError` is returned by `Executor::execute`
but swallowed by `Executors::execute_from_slack_message`, which
returns `Ok(())`; the error is not propagated to the caller. -/
theorem C8_template_error_swallowed (shell : Str → Option Str)
    (exs : Executors) (message : Str) (input : ExecutorInput) (ex : Executor)
    (hne : exs.executors.isEmpty = false)
    (hin : new_from_slack message = .ok input)
    (hex : lookupExecutor input.name exs.executors = some ex)
    (hTE : ex.execute shell input = .templateError) :
    execute_from_slack_message shell exs message = .ok := by
  rw [execute_from_slack_message, if_neg (by simp [hne]), hin]
  simp only [hex, hTE]

/-- C8, witness: the amended statement at a concrete malformed
template. -/
theorem C8_witness :
    execute_from_slack_message shellOk
      ⟨[(str "badtpl", ⟨str "echo \x7b\x7b input"⟩)]⟩
      (str "\x60\x60\x60# executor: badtpl\nhi\x60\x60\x60") = .ok :=
  C8_template_error_swallowed shellOk
    ⟨[(str "badtpl", ⟨str "echo \x7b\x7b input"⟩)]⟩
    (str "\x60\x60\x60# executor: badtpl\nhi\x60\x60\x60")
    ⟨str "badtpl", str "hi"⟩ ⟨str "echo \x7b\x7b input"⟩
    (by decide) (by decide) (by decide) (by decide)

/-- C9, counterexample: on the success path of the spec's own `echo`
scenario (captured stdout `hi\n`), the reply posted back is the fixed
text `Ok! âœ…` — it does not contain the command's captured standard
output (not even `hi` occurs in it). -/
theorem C9_counterexample :
    echoShell (str "echo hi") = some (str "hi\n") ∧
    (listen_step echoShell defaultExecutors
      (.normalMessage (str "e1")
        (.appMention (str "\x60\x60\x60# executor: echo\nhi\x60\x60\x60")
          (str "12.3")))).posts =
      [{ channel := str "rust-slack-bot", text := postText,
         icon_emoji := str ":sushi:", thread_ts := some (str "12.3") }] ∧
    findSub (str "hi") postText = none := by
  decide

/-- C9, amended: for every mention whose processing does not panic,
exactly one reply is posted and its text is the constant `Ok! âœ…`
(threaded at the triggering message's `ts`, in the hardcoded channel),
independent of the command's captured output. -/
theorem C9_fixed_reply (shell : Str → Option Str) (exs : Executors)
    (eid text ts : Str)
    (h : execute_from_slack_message shell exs text ≠ .panicked) :
    (listen_step shell exs (.normalMessage eid (.appMention text ts))).posts =
      [{ channel := str "rust-slack-bot", text := postText,
         icon_emoji := str ":sushi:", thread_ts := some ts }] := by
  cases hr : execute_from_slack_message shell exs text
  case panicked => exact absurd hr h
  all_goals simp [listen_step, hr, post_message, str]

/-- C9, witness: the amended statement at the concrete `echo`
scenario. -/
theorem C9_witness :
    (listen_step echoShell defaultExecutors
      (.normalMessage (str "e9")
        (.appMention (str "\x60\x60\x60# executor: echo\nhi\x60\x60\x60")
          (str "9.9")))).posts =
      [{ channel := str "rust-slack-bot", text := postText,
         icon_emoji := str ":sushi:", thread_ts := some (str "9.9") }] :=
  C9_fixed_reply echoShell defaultExecutors (str "e9")
    (str "\x60\x60\x60# executor: echo\nhi\x60\x60\x60") (str "9.9") (by decide)

/-- C4, counterexample: rendering applies the handlebars default HTML
escaping to the payload, so substitution is not byte-for-byte: payload
`a&b` renders as `a&amp;b`.  Moreover a template written with a
`payload` placeholder (as the claim's example has it) renders the
placeholder as empty, because the render data key is `input`: `echo
\x7b\x7bpayload\x7d\x7d` with payload `hi` yields `echo `, not
`echo hi`. -/
theorem C4_counterexample :
    prepare_command ⟨str "echo \x7b\x7b input \x7d\x7d"⟩ (str "a&b") =
      some (str "echo a&amp;b") ∧
    str "echo a&amp;b" ≠ str "echo a&b" ∧
    prepare_command ⟨str "echo \x7b\x7bpayload\x7d\x7d"⟩ (str "hi") =
      some (str "echo ") := by
  decide

/-- C4, amended: for every template consisting of brace-free text
around a single `\x7b\x7b input \x7d\x7d` placeholder and every
payload, rendering substitutes the HTML-escaped payload at the
placeholder; when the payload contains none of the escaped characters
(`<`, `>`, `"`, `&`, apostrophe, backtick, `=`) the substitution is
verbatim. -/
theorem C4_escaped_substitution (pre nm post payload : Str)
    (hpre : lbrace ∉ pre) (hnm : rbrace ∉ nm) (hpost : lbrace ∉ post)
    (hname : trim nm = "input".data) :
    prepare_command ⟨pre ++ openMustache ++ nm ++ closeMustache ++ post⟩ payload =
      some (pre ++ htmlEscape payload ++ post) ∧
    ((∀ c ∈ payload, htmlEscapeChar c = [c]) →
      prepare_command ⟨pre ++ openMustache ++ nm ++ closeMustache ++ post⟩ payload =
        some (pre ++ payload ++ post)) := by
  have h1 := parseTemplate_single pre nm post hpre hnm hpost
  rw [hname] at h1
  have hmain : prepare_command ⟨pre ++ openMustache ++ nm ++ closeMustache ++ post⟩
      payload = some (pre ++ htmlEscape payload ++ post) := by
    rw [prepare_command]
    simp only [h1]
    rw [renderParts_single]
  refine ⟨hmain, fun hplain => ?_⟩
  rw [hmain, htmlEscape_eq_self payload hplain]

/-- C4, witness: the amended statement at the `echo` template with a
plain payload. -/
theorem C4_witness :
    prepare_command ⟨str "echo " ++ openMustache ++ str " input " ++
      closeMustache ++ []⟩ (str "hi") = some (str "echo " ++ str "hi" ++ []) :=
  (C4_escaped_substitution (str "echo ") (str " input ") [] (str "hi")
    (by decide) (by decide) (by decide) (by decide)).2 (by decide)

/-- C5, counterexample: on the directive line `a:executor:x` the parser
takes the segment between the last two colons (`executor`) as key and
sets the name to `x`, whereas under the claim's description the key
would be the whole text before the last colon, `a:executor`, which is
not the recognized key `executor`, so the line could not set the
name. -/
theorem C5_counterexample :
    parse_code_block (str "# a:executor:x\nfoo") = .ok ⟨str "x", str "foo"⟩ ∧
    claimDirectiveKeyValue (str "a:executor:x") =
      some (str "a:executor", str "x") ∧
    str "a:executor" ≠ str "executor" := by
  decide

/-- C5, amended: a directive line is stripped of leading `#`s and
trimmed; the split on `:` takes the last segment as value and the
segment between the last two colons (not all text before the last
colon) as key; a stripped line with no colon fails with a
directive-syntax error naming the stripped content. -/
theorem C5_directive_split (acc : ExecutorInput) (line : Str)
    (rest : List Str) (hd : startsWithChar '#' line = true) :
    (∀ front key value,
      splitOnChar ':' (trim (line.dropWhile (fun c => c = '#'))) =
        front ++ [key, value] →
      parseLines acc (line :: rest) =
        if key = "executor".data
        then parseLines { acc with name := trim value } rest
        else .panicUnimplemented key) ∧
    (∀ x, splitOnChar ':' (trim (line.dropWhile (fun c => c = '#'))) = [x] →
      parseLines acc (line :: rest) =
        .splitFailure (trim (line.dropWhile (fun c => c = '#')))) := by
  constructor
  · intro front key value hsp
    rw [parseLines, if_pos (by simp [hd])]
    simp only [hsp, List.reverse_append, List.reverse_cons, List.reverse_nil,
      List.nil_append, List.cons_append]
  · intro x hsp
    rw [parseLines, if_pos (by simp [hd])]
    simp only [hsp, List.reverse_cons, List.reverse_nil, List.nil_append]

/-- C5, witness: the amended statement at the two concrete directive
lines of the source's unit tests. -/
theorem C5_witness :
    parseLines ⟨[], []⟩ [str "# executor: psql"] = .ok ⟨str "psql", []⟩ ∧
    parseLines ⟨[], []⟩ [str "# executor psql"] =
      .splitFailure (str "executor psql") := by
  constructor
  · have h := (C5_directive_split ⟨[], []⟩ (str "# executor: psql") []
      (by decide)).1 [] (str "executor") (str " psql") (by decide)
    rw [h]
    decide
  · have h := (C5_directive_split ⟨[], []⟩ (str "# executor psql") []
      (by decide)).2 (str "executor psql") (by decide)
    rw [h]
    decide

/-- A list of nonempty strings does not end with the empty string. -/
theorem getLast_ne_nil (ls : List Str) (h : ∀ l ∈ ls, l ≠ []) :
    ls.getLast? ≠ some [] := by
  intro hc
  exact h [] (List.mem_of_getLast?_eq_some hc) rfl

/-- C6: for every well-formed fenced block made of a `# executor: X`
directive (colon-free, trimmed, nonempty `X`) followed by non-empty
non-directive lines, `new_from_slack` succeeds with name `X` and
payload the separator-free concatenation of the per-line-trimmed
non-directive lines. -/
theorem C6_extract_request (X : Str) (body : List Str)
    (hXc : ':' ∉ X) (hXn : '\n' ∉ X) (hXr : '\r' ∉ X) (hXq : '\x60' ∉ X)
    (hXt : trim X = X) (hXne : X ≠ [])
    (hbody : ∀ l ∈ body, '\n' ∉ l ∧ '\r' ∉ l ∧ '\x60' ∉ l ∧
      trim l ≠ [] ∧ startsWithChar '#' (trim l) = false) :
    new_from_slack
      (marker ++ joinWithNl (("# executor: ".data ++ X) :: body) ++ marker) =
      .ok ⟨X, (body.map trim).flatten⟩ := by
  have hdirn : '\n' ∉ "# executor: ".data ++ X := by
    simp only [List.mem_append, not_or]
    exact ⟨by decide, hXn⟩
  have hdirr : '\r' ∉ "# executor: ".data ++ X := by
    simp only [List.mem_append, not_or]
    exact ⟨by decide, hXr⟩
  have hdirq : '\x60' ∉ "# executor: ".data ++ X := by
    simp only [List.mem_append, not_or]
    exact ⟨by decide, hXq⟩
  have hdirne : "# executor: ".data ++ X ≠ [] := by
    intro hc
    have := congrArg List.length hc
    simp at this
  have hlines : ∀ l ∈ ("# executor: ".data ++ X) :: body, '\n' ∉ l ∧ '\r' ∉ l := by
    intro l hl
    rcases List.mem_cons.1 hl with h | h
    · rw [h]; exact ⟨hdirn, hdirr⟩
    · exact ⟨(hbody l h).1, (hbody l h).2.1⟩
  have hlast : (("# executor: ".data ++ X) :: body).getLast? ≠ some [] := by
    apply getLast_ne_nil
    intro l hl
    rcases List.mem_cons.1 hl with h | h
    · rw [h]; exact hdirne
    · exact ne_nil_of_trim l (hbody l h).2.2.2.1
  have hb2 : ∀ l ∈ body.map trim, startsWithChar '#' l = false := by
    intro l hl
    rcases List.mem_map.1 hl with ⟨a, ha, hrf⟩
    rw [← hrf]
    exact (hbody a ha).2.2.2.2
  have hparse : parse_code_block
      (joinWithNl (("# executor: ".data ++ X) :: body)) =
      .ok ⟨X, (body.map trim).flatten⟩ := by
    rw [parse_code_block_joinWithNl _ hlines hlast]
    rw [List.map_cons, trim_dir X hXt hXne]
    rw [parseLines_dir ⟨[], []⟩ X _ hXc hXt hXne]
    rw [show ({ (⟨[], []⟩ : ExecutorInput) with name := X } : ExecutorInput) =
      ⟨X, []⟩ from rfl]
    rw [parseLines_body X [] _ hb2]
    simp
  have hqblock : '\x60' ∉ joinWithNl (("# executor: ".data ++ X) :: body) := by
    intro hmem
    rcases mem_joinWithNl _ _ hmem with h | ⟨l, hl, hcl⟩
    · exact absurd h (by decide)
    · rcases List.mem_cons.1 hl with h2 | h2
      · rw [h2] at hcl
        exact absurd hcl hdirq
      · exact absurd hcl (hbody l h2).2.2.1
  rw [new_from_slack, extract_fenced _ hqblock]
  simp only [hparse]

/-- C6, witness: the spec's own example block. -/
theorem C6_witness :
    new_from_slack (marker ++ joinWithNl
      [("# executor: ".data ++ str "psql"), str "select * from status;"] ++
      marker) =
      .ok ⟨str "psql", ([str "select * from status;"].map trim).flatten⟩ :=
  C6_extract_request (str "psql") [str "select * from status;"]
    (by decide) (by decide) (by decide) (by decide) (by decide) (by decide)
    (by decide)

/-- C10: a block with two `# executor:` directives parses successfully
— duplicates are never rejected — and the resulting name is the trimmed
value of the LAST directive line, the earlier one being silently
overwritten. -/
theorem C10_last_directive_wins (X Y : Str) (body : List Str)
    (hXc : ':' ∉ X) (hXn : '\n' ∉ X) (hXr : '\r' ∉ X)
    (hXt : trim X = X) (hXne : X ≠ [])
    (hYc : ':' ∉ Y) (hYn : '\n' ∉ Y) (hYr : '\r' ∉ Y)
    (hYt : trim Y = Y) (hYne : Y ≠ [])
    (hbody : ∀ l ∈ body, '\n' ∉ l ∧ '\r' ∉ l ∧
      trim l ≠ [] ∧ startsWithChar '#' (trim l) = false) :
    parse_code_block (joinWithNl (("# executor: ".data ++ X) ::
      ("# executor: ".data ++ Y) :: body)) =
      .ok ⟨Y, (body.map trim).flatten⟩ := by
  have hdirX : '\n' ∉ "# executor: ".data ++ X ∧ '\r' ∉ "# executor: ".data ++ X := by
    constructor
    · simp only [List.mem_append, not_or]
      exact ⟨by decide, hXn⟩
    · simp only [List.mem_append, not_or]
      exact ⟨by decide, hXr⟩
  have hdirY : '\n' ∉ "# executor: ".data ++ Y ∧ '\r' ∉ "# executor: ".data ++ Y := by
    constructor
    · simp only [List.mem_append, not_or]
      exact ⟨by decide, hYn⟩
    · simp only [List.mem_append, not_or]
      exact ⟨by decide, hYr⟩
  have hdirne : ∀ Z : Str, "# executor: ".data ++ Z ≠ [] := by
    intro Z hc
    have := congrArg List.length hc
    simp at this
  have hlines : ∀ l ∈ ("# executor: ".data ++ X) ::
      ("# executor: ".data ++ Y) :: body, '\n' ∉ l ∧ '\r' ∉ l := by
    intro l hl
    rcases List.mem_cons.1 hl with h | h
    · rw [h]; exact hdirX
    · rcases List.mem_cons.1 h with h2 | h2
      · rw [h2]; exact hdirY
      · exact ⟨(hbody l h2).1, (hbody l h2).2.1⟩
  have hlast : (("# executor: ".data ++ X) ::
      ("# executor: ".data ++ Y) :: body).getLast? ≠ some [] := by
    apply getLast_ne_nil
    intro l hl
    rcases List.mem_cons.1 hl with h | h
    · rw [h]; exact hdirne X
    · rcases List.mem_cons.1 h with h2 | h2
      · rw [h2]; exact hdirne Y
      · exact ne_nil_of_trim l (hbody l h2).2.2.1
  have hb2 : ∀ l ∈ body.map trim, startsWithChar '#' l = false := by
    intro l hl
    rcases List.mem_map.1 hl with ⟨a, ha, hrf⟩
    rw [← hrf]
    exact (hbody a ha).2.2.2
  rw [parse_code_block_joinWithNl _ hlines hlast]
  rw [List.map_cons, List.map_cons, trim_dir X hXt hXne, trim_dir Y hYt hYne]
  rw [parseLines_dir ⟨[], []⟩ X _ hXc hXt hXne]
  rw [show ({ (⟨[], []⟩ : ExecutorInput) with name := X } : ExecutorInput) =
    ⟨X, []⟩ from rfl]
  rw [parseLines_dir ⟨X, []⟩ Y _ hYc hYt hYne]
  rw [show ({ (⟨X, []⟩ : ExecutorInput) with name := Y } : ExecutorInput) =
    ⟨Y, []⟩ from rfl]
  rw [parseLines_body Y [] _ hb2]
  simp

/-- C10, witness: two concrete duplicate directives; the last one
wins. -/
theorem C10_witness :
    parse_code_block (joinWithNl [("# executor: ".data ++ str "psql"),
      ("# executor: ".data ++ str "echo"), str "hi"]) =
      .ok ⟨str "echo", ([str "hi"].map trim).flatten⟩ :=
  C10_last_directive_wins (str "psql") (str "echo") [str "hi"]
    (by decide) (by decide) (by decide) (by decide) (by decide)
    (by decide) (by decide) (by decide) (by decide) (by decide)
    (by decide)

/-! ## Sanity checks mirroring the source's unit tests -/

example : parse_code_block (str "# executor: psql\nselect * from status;") =
    .ok ⟨str "psql", str "select * from status;"⟩ := by decide

example : parse_code_block (str "# executor psql\nselect * from status;") =
    .splitFailure (str "executor psql") := by decide

example : prepare_command ⟨str "echo \x7b\x7b input \x7d\x7d"⟩ (str "hi") =
    some (str "echo hi") := by decide

example : prepare_command ⟨str "echo \x7b\x7b input \x7d\x7d"⟩ (str "a&b") =
    some (str "echo a&amp;b") := by decide

example : prepare_command ⟨str "echo \x7b\x7b input"⟩ (str "hi") = none := by decide

example :
    listen_step shellOk defaultExecutors
      (.normalMessage (str "e1") (.reactionUpdated (str "reaction_added") (str "sushi"))) =
    ⟨[str "e1"], [], .nextFrame⟩ := by decide

example :
    listen_step echoShell defaultExecutors
      (.normalMessage (str "e1")
        (.appMention (str "\x60\x60\x60# executor: echo\nhi\x60\x60\x60") (str "123.45"))) =
    ⟨[str "e1"], [post_message (str "x") (some (str "123.45"))], .nextFrame⟩ := by decide
